import Mathlib

/-!
Verification development for the datascoutingnl player-finder dashboard.

The first part embeds the data-loading and filtering pipeline of app.py
(load_database, safe_mean, and the sidebar filter pipeline of main) as
executable Lean functions over rational numbers.  The second part models,
from the specification, the aerial-duel rating procedure (eligibility
filter, pairwise outcome model, rating updater with skip-on-error, and
min-max score normalizer), which is described in the spec but has no
implementation in the repository sources.
-/

namespace Scouting

/-- A raw cell of the SQLite table: a number, a malformed entry
(pd.to_numeric with errors=coerce turns it into NaN), or a null. -/
inductive RawVal where
  | num (q : ℚ)
  | malformed
  | null
deriving DecidableEq

/-- Whether a raw cell holds an actual number. -/
def RawVal.isNum : RawVal → Bool
  | .num _ => true
  | _ => false

/-- pd.to_numeric(col, errors=coerce).fillna(0): a numeric cell keeps its
value, malformed and null cells become 0. -/
def coerceNum : RawVal → ℚ
  | .num q => q
  | _ => 0

/-- The metrics of the metrics_for_per90 list in load_database. -/
inductive P90Metric where
  | goals | xG | assists | xA | shots | shotsOnTarget
  | dribblesCompleted | touchesInBox | keyPasses
  | accuratePasses | progressivePasses
  | interceptions | tackles | blocks | clearances | aerialDuelsWon
  | saves | goalsConceded
deriving DecidableEq

/-- A raw database row, restricted to the columns the derived statistics
read: the player name (None models a null dropped by dropna), minutes
played, pass and dribble denominators, the market-value column, and the
base columns of the per-90 metrics. -/
structure RawRow where
  name : Option String
  minutesPlayed : RawVal
  totalPasses : RawVal
  dribblesAttempted : RawVal
  marketValue : RawVal
  stat : P90Metric → RawVal

/-- A raw table: its rows plus whether the Market_value_eur column is
present (column presence is a table-level fact in pandas). -/
structure RawTable where
  rows : List RawRow
  hasMarketValue : Bool

/-- A row after load_database: every numeric statistic is a rational. -/
structure LoadedRow where
  minutesPlayed : ℚ
  totalPasses : ℚ
  dribblesAttempted : ℚ
  marketValue : ℚ
  stat : P90Metric → ℚ
  statPer90 : P90Metric → ℚ
  passAccuracyPerc : ℚ
  dribbleSuccessPerc : ℚ

/-- np.where(minutes > 0, metric / minutes * 90, 0). -/
def per90Val (metric mins : ℚ) : ℚ :=
  if 0 < mins then metric / mins * 90 else 0

/-- np.where(denom > 0, numer / denom * 100, 0). -/
def pctVal (numer denom : ℚ) : ℚ :=
  if 0 < denom then numer / denom * 100 else 0

/-- Load one row: coerce the numeric columns, derive the per-90 columns
and the two percentage columns, and fill Market_value_eur from the
np.random.randint(500000, 50000000) draw rnd when the column is absent. -/
def loadRow (rnd : ℤ) (hasMV : Bool) (r : RawRow) : LoadedRow :=
  { minutesPlayed := coerceNum r.minutesPlayed
    totalPasses := coerceNum r.totalPasses
    dribblesAttempted := coerceNum r.dribblesAttempted
    marketValue :=
      if hasMV then coerceNum r.marketValue
      else ((500000 + rnd % 49500000 : ℤ) : ℚ)
    stat := fun m => coerceNum (r.stat m)
    statPer90 := fun m => per90Val (coerceNum (r.stat m)) (coerceNum r.minutesPlayed)
    passAccuracyPerc :=
      pctVal (coerceNum (r.stat .accuratePasses)) (coerceNum r.totalPasses)
    dribbleSuccessPerc :=
      pctVal (coerceNum (r.stat .dribblesCompleted)) (coerceNum r.dribblesAttempted) }

/-- Load the rows: dropna on the player name, then transform each kept row;
the index i numbers the kept rows, matching the positional assignment of
the random market-value vector (drawn with size = len(df) after dropna). -/
def loadRows (rng : ℕ → ℤ) (hasMV : Bool) : ℕ → List RawRow → List LoadedRow
  | _, [] => []
  | i, r :: rs =>
    if r.name.isSome then loadRow (rng i) hasMV r :: loadRows rng hasMV (i + 1) rs
    else loadRows rng hasMV i rs

/-- load_database of app.py, as a function of the raw table and of the
stream rng of np.random.randint draws used for a missing
Market_value_eur column. -/
def load_database (rng : ℕ → ℤ) (t : RawTable) : List LoadedRow :=
  loadRows rng t.hasMarketValue 0 t.rows

/-- A pandas Series argument of safe_mean: None, or a series with a
numeric-dtype flag and a list of cells (None models a null cell). -/
inductive PSeries where
  | none
  | mk (numeric : Bool) (vals : List (Option ℚ))

/-- Series.mean() with skipna: the mean of the non-null cells, or NaN
(modelled as Option.none) when every cell is null. -/
def meanOpt (vals : List (Option ℚ)) : Option ℚ :=
  let xs := vals.filterMap id
  if xs.isEmpty then Option.none else Option.some (xs.sum / xs.length)

/-- safe_mean of app.py. The final f-string interpolation with the
caller-supplied format spec is itself fallible: a format code that does
not accept a float, such as d, raises ValueError on the float mean, and
safe_mean has no try/except around it, so the formatter is modelled as a
fallible function whose error propagates out. -/
def safe_mean (fmt : ℚ → Except Unit String) : PSeries → Except Unit String
  | .none => Except.ok "N/A"
  | .mk numeric vals =>
    if vals.isEmpty || !numeric || vals.all (fun v => v.isNone) then Except.ok "N/A"
    else
      match meanOpt vals with
      | Option.none => Except.ok "N/A"
      | Option.some q => fmt q

/-- The format spec d, passed by the repo for the minutes-played summary
(safe_mean(..., Minutes_played ...), format d): Python string formatting
with code d raises ValueError on every float argument, so the formatter
errors on every rational mean. -/
def fmtIntCode : ℚ → Except Unit String := fun _ => Except.error ()

/-- The guard condition of safe_mean: series is None, or empty, or not of
numeric dtype, or all-null. -/
def seriesBad : PSeries → Bool
  | .none => true
  | .mk numeric vals => vals.isEmpty || !numeric || vals.all (fun v => v.isNone)

/-- A row as seen by the sidebar filter pipeline of main. -/
structure FRow where
  position : String
  team : String
  league : String
  nationality : String
  foot : String
  age : ℚ
  minutes : ℚ
  contractYear : ℚ
  marketValue : ℚ
  metric : P90Metric → ℚ

/-- One categorical filter step: a non-empty selection keeps the rows
whose value is in the selection, an empty selection is skipped
(an empty Python list is falsy). -/
def applyCat (sel : List String) (get : FRow → String) (l : List FRow) : List FRow :=
  if sel.isEmpty then l else l.filter (fun r => sel.contains (get r))

/-- One numeric range filter step (a range tuple is always truthy, so the
step is always applied). -/
def applyRange (lohi : ℚ × ℚ) (get : FRow → ℚ) (l : List FRow) : List FRow :=
  l.filter (fun r => decide (lohi.1 ≤ get r) && decide (get r ≤ lohi.2))

/-- The per-90 metric range filters, applied one after the other as in the
for-loop over metric_ranges. -/
def applyMetricRanges : List (P90Metric × ℚ × ℚ) → List FRow → List FRow
  | [], l => l
  | mr :: rest, l =>
    applyMetricRanges rest
      (l.filter (fun r => decide (mr.2.1 ≤ r.metric mr.1) && decide (r.metric mr.1 ≤ mr.2.2)))

/-- The sidebar filter selections of main. -/
structure Filters where
  positions : List String
  teams : List String
  leagues : List String
  nationalities : List String
  feet : List String
  ageRange : ℚ × ℚ
  minutesRange : ℚ × ℚ
  contractRange : ℚ × ℚ
  marketRange : ℚ × ℚ
  metricRanges : List (P90Metric × ℚ × ℚ)

/-- The filter pipeline of main (lines applying the categorical filters,
the four range filters, and the metric range filters, in source order). -/
def applyFilters (f : Filters) (l : List FRow) : List FRow :=
  applyMetricRanges f.metricRanges
    (applyRange f.marketRange (fun r => r.marketValue)
      (applyRange f.contractRange (fun r => r.contractYear)
        (applyRange f.minutesRange (fun r => r.minutes)
          (applyRange f.ageRange (fun r => r.age)
            (applyCat f.feet (fun r => r.foot)
              (applyCat f.nationalities (fun r => r.nationality)
                (applyCat f.leagues (fun r => r.league)
                  (applyCat f.teams (fun r => r.team)
                    (applyCat f.positions (fun r => r.position) l)))))))))

/-- Whether a value passes one categorical filter. -/
def catPass (sel : List String) (v : String) : Bool :=
  sel.isEmpty || sel.contains v

/-- Whether a value passes one range filter. -/
def rangePass (lohi : ℚ × ℚ) (v : ℚ) : Bool :=
  decide (lohi.1 ≤ v) && decide (v ≤ lohi.2)

/-- The conjunction of all active filter predicates on one row. -/
def rowPasses (f : Filters) (r : FRow) : Bool :=
  catPass f.positions r.position && catPass f.teams r.team &&
  catPass f.leagues r.league && catPass f.nationalities r.nationality &&
  catPass f.feet r.foot &&
  rangePass f.ageRange r.age && rangePass f.minutesRange r.minutes &&
  rangePass f.contractRange r.contractYear && rangePass f.marketRange r.marketValue &&
  f.metricRanges.all (fun mr => decide (mr.2.1 ≤ r.metric mr.1) && decide (r.metric mr.1 ≤ mr.2.2))

/-- Modelled from the spec: the three attributes of an eligible player used
by the pairwise outcome model (the aerial-duel rating code is described in
the spec but absent from the repository sources). -/
structure AerialPlayer where
  height : ℚ
  aerialPer90 : ℚ
  aerialWinPct : ℚ
deriving DecidableEq

/-- Modelled from the spec: the weighted composite score
W(P) = 0.5 * (aerial duels per 90) + 1.0 * height + 1.5 * (aerial win pct). -/
def compositeW (p : AerialPlayer) : ℚ :=
  0.5 * p.aerialPer90 + 1 * p.height + 1.5 * p.aerialWinPct

/-- Modelled from the spec: the pairwise outcome of A versus B, 1 when
W(A) - W(B) > 5, 0 when W(A) - W(B) < -5, 0.5 otherwise. -/
def outcome (a b : AerialPlayer) : ℚ :=
  if 5 < compositeW a - compositeW b then 1
  else if compositeW a - compositeW b < -5 then 0
  else 0.5

/-- Modelled from the spec: the (rating, deviation, volatility) triple of
the rating updater. -/
structure RatingState where
  rating : ℚ
  rd : ℚ
  vol : ℚ
deriving DecidableEq

/-- Modelled from the spec: one player update with the try/except policy.
The iterative solver itself is not given by formulas in the spec, so it is
an arbitrary function upd that either returns a new state or raises a
numeric error; on an error the update is skipped and the prior pair is
kept unchanged. -/
def updateOne (upd : AerialPlayer × RatingState → Except Unit RatingState)
    (p : AerialPlayer × RatingState) : AerialPlayer × RatingState :=
  match upd p with
  | Except.ok s => (p.1, s)
  | Except.error _ => p

/-- Modelled from the spec: the rating-update pass over all eligible
players. -/
def updatePass (upd : AerialPlayer × RatingState → Except Unit RatingState)
    (l : List (AerialPlayer × RatingState)) : List (AerialPlayer × RatingState) :=
  l.map (updateOne upd)

/-- Modelled from the spec: the raw combined value
R(P) = W(P) + rating(P) of the score normalizer, over a (player, rating)
pair. -/
def combinedR (pr : AerialPlayer × ℚ) : ℚ :=
  compositeW pr.1 + pr.2

/-- Minimum of a list of rationals (0 on the empty list, which the
normalizer never hits). -/
def foldMin : List ℚ → ℚ
  | [] => 0
  | x :: xs => xs.foldl min x

/-- Maximum of a list of rationals (0 on the empty list). -/
def foldMax : List ℚ → ℚ
  | [] => 0
  | x :: xs => xs.foldl max x

/-- Modelled from the spec: min(R) over the eligible population. -/
def rMin (l : List (AerialPlayer × ℚ)) : ℚ :=
  foldMin (l.map combinedR)

/-- Modelled from the spec: max(R) over the eligible population. -/
def rMax (l : List (AerialPlayer × ℚ)) : ℚ :=
  foldMax (l.map combinedR)

/-- Modelled from the spec: the min-max normalized score
(R(P) - min R) / (max R - min R) * 100; when min R = max R the division
by zero is undefined behavior in the source, modelled as Option.none. -/
def scoreOf (l : List (AerialPlayer × ℚ)) (pr : AerialPlayer × ℚ) : Option ℚ :=
  if rMax l = rMin l then Option.none
  else Option.some ((combinedR pr - rMin l) / (rMax l - rMin l) * 100)

/-- Modelled from the spec: the final Aerial Duel Score of every eligible
player, in population order. -/
def finalScores (l : List (AerialPlayer × ℚ)) : List (Option ℚ) :=
  l.map (scoreOf l)

/-- Modelled from the spec: a player row as seen by the eligibility filter
and the final left join; the three required attributes are optional to
model missing or null cells. -/
structure PRow where
  name : String
  minutes : ℚ
  position : String
  height : Option ℚ
  aerialPer90 : Option ℚ
  aerialWinPct : Option ℚ
deriving DecidableEq

/-- Modelled from the spec: the eligibility filter, minutes played at
least the threshold, not a goalkeeper, and the three required attributes
present. -/
def eligibleRow (thr : ℚ) (r : PRow) : Bool :=
  decide (thr ≤ r.minutes) && !(r.position == "GK") &&
  r.height.isSome && r.aerialPer90.isSome && r.aerialWinPct.isSome

/-- Modelled from the spec: the (name, score) pairs of the eligible
players, for an arbitrary per-player score scoreFn. -/
def scoresMap (thr : ℚ) (scoreFn : PRow → ℚ) (tbl : List PRow) : List (String × ℚ) :=
  (tbl.filter (eligibleRow thr)).map (fun r => (r.name, scoreFn r))

/-- First-match lookup of a name in a (name, score) association list. -/
def lookupName (s : String) : List (String × ℚ) → Option ℚ
  | [] => Option.none
  | kv :: rest => if kv.1 = s then Option.some kv.2 else lookupName s rest

/-- Modelled from the spec: the left join of the Aerial Duel Score column
onto the original table by player name; a row with no matching eligible
player gets Option.none. -/
def joinedTable (thr : ℚ) (scoreFn : PRow → ℚ) (tbl : List PRow) : List (PRow × Option ℚ) :=
  tbl.map (fun r => (r, lookupName r.name (scoresMap thr scoreFn tbl)))

/-- The list of cells carried by a series (empty for None). -/
def seriesVals : PSeries → List (Option ℚ)
  | .none => []
  | .mk _ vals => vals

/-- A concrete raw row used for the concrete instantiations below: valid
minutes and denominators, one malformed statistic (xG) and one null
statistic (xA). -/
def sampleRow : RawRow where
  name := Option.some "A"
  minutesPlayed := RawVal.num 90
  totalPasses := RawVal.num 50
  dribblesAttempted := RawVal.num 50
  marketValue := RawVal.num 1000000
  stat := fun m =>
    match m with
    | P90Metric.xG => RawVal.malformed
    | P90Metric.xA => RawVal.null
    | _ => RawVal.num 45

/-- A concrete table with the Market_value_eur column present. -/
def sampleTable : RawTable := { rows := [sampleRow], hasMarketValue := true }

/-- A concrete table with the Market_value_eur column absent. -/
def noMVTable : RawTable := { rows := [sampleRow], hasMarketValue := false }

/-- A constant stream of np.random.randint draws. -/
def zeroRng : ℕ → ℤ := fun _ => 0

/-- A second constant stream of np.random.randint draws. -/
def oneRng : ℕ → ℤ := fun _ => 1

/-- Two eligible players whose composite scores W differ by 10 while
their raw combined values R coincide (ratings 1510 and 1500, both inside
the clamp range [1000, 2000] of the rating updater). -/
def cexList : List (AerialPlayer × ℚ) :=
  [(⟨0, 0, 0⟩, 1510), (⟨10, 0, 0⟩, 1500)]

/-- Two eligible players with distinct raw combined values R. -/
def okList : List (AerialPlayer × ℚ) :=
  [(⟨0, 0, 0⟩, 1500), (⟨10, 0, 0⟩, 1500)]

/-- A concrete ineligible row: minutes played 100, below the threshold
180. -/
def badRow : PRow where
  name := "B"
  minutes := 100
  position := "ST"
  height := Option.some 180
  aerialPer90 := Option.some 3
  aerialWinPct := Option.some 50

/-! Helper lemmas. -/

theorem foldl_min_le_acc (xs : List ℚ) : ∀ acc : ℚ, xs.foldl min acc ≤ acc := by
  induction xs with
  | nil => intro acc; simp
  | cons x xs ih =>
    intro acc
    exact le_trans (ih (min acc x)) (min_le_left _ _)

theorem foldl_min_le_mem (xs : List ℚ) : ∀ acc : ℚ, ∀ a ∈ xs, xs.foldl min acc ≤ a := by
  induction xs with
  | nil => intro acc a ha; cases ha
  | cons x xs ih =>
    intro acc a ha
    rcases List.mem_cons.mp ha with h | h
    · subst h
      exact le_trans (foldl_min_le_acc xs (min acc a)) (min_le_right _ _)
    · exact ih (min acc x) a h

theorem acc_le_foldl_max (xs : List ℚ) : ∀ acc : ℚ, acc ≤ xs.foldl max acc := by
  induction xs with
  | nil => intro acc; simp
  | cons x xs ih =>
    intro acc
    exact le_trans (le_max_left _ _) (ih (max acc x))

theorem mem_le_foldl_max (xs : List ℚ) : ∀ acc : ℚ, ∀ a ∈ xs, a ≤ xs.foldl max acc := by
  induction xs with
  | nil => intro acc a ha; cases ha
  | cons x xs ih =>
    intro acc a ha
    rcases List.mem_cons.mp ha with h | h
    · subst h
      exact le_trans (le_max_right _ _) (acc_le_foldl_max xs (max acc a))
    · exact ih (max acc x) a h

theorem foldMin_le (l : List ℚ) (a : ℚ) (ha : a ∈ l) : foldMin l ≤ a := by
  cases l with
  | nil => cases ha
  | cons x xs =>
    rcases List.mem_cons.mp ha with h | h
    · subst h; exact foldl_min_le_acc xs a
    · exact foldl_min_le_mem xs x a h

theorem le_foldMax (l : List ℚ) (a : ℚ) (ha : a ∈ l) : a ≤ foldMax l := by
  cases l with
  | nil => cases ha
  | cons x xs =>
    rcases List.mem_cons.mp ha with h | h
    · subst h; exact acc_le_foldl_max xs a
    · exact mem_le_foldl_max xs x a h

theorem rMin_le_combinedR (l : List (AerialPlayer × ℚ)) (pr : AerialPlayer × ℚ)
    (h : pr ∈ l) : rMin l ≤ combinedR pr :=
  foldMin_le _ _ (List.mem_map_of_mem combinedR h)

theorem combinedR_le_rMax (l : List (AerialPlayer × ℚ)) (pr : AerialPlayer × ℚ)
    (h : pr ∈ l) : combinedR pr ≤ rMax l :=
  le_foldMax _ _ (List.mem_map_of_mem combinedR h)

theorem mem_loadRows (rng : ℕ → ℤ) (hMV : Bool) (rows : List RawRow) :
    ∀ i lr, lr ∈ loadRows rng hMV i rows → ∃ r ∈ rows, ∃ j, lr = loadRow (rng j) hMV r := by
  induction rows with
  | nil => intro i lr h; simp [loadRows] at h
  | cons r rs ih =>
    intro i lr h
    simp only [loadRows] at h
    by_cases hn : r.name.isSome = true
    · rw [if_pos hn] at h
      rcases List.mem_cons.mp h with h1 | h1
      · exact ⟨r, List.mem_cons_self r rs, i, h1⟩
      · obtain ⟨r2, hr2, j, hj⟩ := ih (i + 1) lr h1
        exact ⟨r2, List.mem_cons_of_mem _ hr2, j, hj⟩
    · rw [if_neg hn] at h
      obtain ⟨r2, hr2, j, hj⟩ := ih i lr h
      exact ⟨r2, List.mem_cons_of_mem _ hr2, j, hj⟩

theorem lookupName_eq_none (s : String) (m : List (String × ℚ))
    (h : ∀ kv ∈ m, kv.1 ≠ s) : lookupName s m = Option.none := by
  induction m with
  | nil => rfl
  | cons kv rest ih =>
    rw [lookupName, if_neg (h kv (List.mem_cons_self _ _))]
    exact ih (fun kv2 h2 => h kv2 (List.mem_cons_of_mem _ h2))

theorem meanOpt_isSome_of_not_all_none (vals : List (Option ℚ))
    (h : vals.all (fun v => v.isNone) = false) : ∃ q, meanOpt vals = Option.some q := by
  have hex : ∃ v ∈ vals, ¬(v.isNone = true) := by
    by_contra hc
    push_neg at hc
    rw [List.all_eq_true.mpr hc] at h
    cases h
  obtain ⟨v, hv, hvn⟩ := hex
  cases v with
  | none => exact absurd rfl hvn
  | some q =>
    have hq : q ∈ vals.filterMap id := List.mem_filterMap.mpr ⟨Option.some q, hv, rfl⟩
    have hne : (vals.filterMap id).isEmpty ≠ true := by
      intro he
      rw [List.isEmpty_iff] at he
      rw [he] at hq
      cases hq
    refine ⟨(vals.filterMap id).sum / (vals.filterMap id).length, ?_⟩
    unfold meanOpt
    rw [if_neg hne]

theorem pctVal_bounds (n d : ℚ) (h0 : 0 ≤ n) (hnd : n ≤ d) :
    0 ≤ pctVal n d ∧ pctVal n d ≤ 100 := by
  unfold pctVal
  split_ifs with hd
  · constructor
    · exact mul_nonneg (div_nonneg h0 (le_of_lt hd)) (by norm_num)
    · have h1 : n / d ≤ 1 := (div_le_one hd).mpr hnd
      calc n / d * 100 ≤ 1 * 100 := mul_le_mul_of_nonneg_right h1 (by norm_num)
        _ = 100 := by norm_num
  · norm_num

/-! Claim theorems. -/

/-- C2: for every ordered pair of distinct eligible players A, B, the
pairwise outcomes satisfy Outcome(A,B) + Outcome(B,A) = 1, with
Outcome(A,B) equal to 1 when W(A) - W(B) > 5, to 0 when
W(A) - W(B) < -5, and to 0.5 otherwise. -/
theorem C2_outcome_symmetry (a b : AerialPlayer) (hab : a ≠ b) :
    outcome a b + outcome b a = 1 := by
  unfold outcome
  split_ifs <;> linarith

theorem C2_outcome_symmetry_witness :
    ((⟨10, 0, 0⟩ : AerialPlayer) ≠ ⟨0, 0, 0⟩) ∧
    outcome ⟨10, 0, 0⟩ ⟨0, 0, 0⟩ + outcome ⟨0, 0, 0⟩ ⟨10, 0, 0⟩ = 1 :=
  ⟨by decide, C2_outcome_symmetry ⟨10, 0, 0⟩ ⟨0, 0, 0⟩ (by decide)⟩

/-- C3: when the rating update step for a player raises a numeric error,
the update is skipped: the player keeps the prior (rating, deviation,
volatility) triple, and the unchanged pair is still present in the output
of the pass; the pass itself is a total function, so no error propagates
out of the computation. -/
theorem C3_update_skip_retains_state
    (upd : AerialPlayer × RatingState → Except Unit RatingState)
    (l : List (AerialPlayer × RatingState)) (p : AerialPlayer × RatingState)
    (hp : p ∈ l) (e : Unit) (he : upd p = Except.error e) :
    updateOne upd p = p ∧ p ∈ updatePass upd l := by
  have h1 : updateOne upd p = p := by
    unfold updateOne
    rw [he]
  have h2 := List.mem_map_of_mem (updateOne upd) hp
  rw [h1] at h2
  exact ⟨h1, h2⟩

theorem C3_update_skip_retains_state_witness :
    updateOne (fun _ => Except.error ()) ((⟨0, 0, 0⟩ : AerialPlayer), (⟨1500, 350, 1⟩ : RatingState))
        = ((⟨0, 0, 0⟩ : AerialPlayer), (⟨1500, 350, 1⟩ : RatingState)) ∧
    ((⟨0, 0, 0⟩ : AerialPlayer), (⟨1500, 350, 1⟩ : RatingState))
        ∈ updatePass (fun _ => Except.error ())
            [((⟨0, 0, 0⟩ : AerialPlayer), (⟨1500, 350, 1⟩ : RatingState))] :=
  C3_update_skip_retains_state (fun _ => Except.error ()) _ _ (List.mem_cons_self _ _) () rfl

/-- C7: every row of the loaded table stems from a raw row, and on every
numeric statistic column used downstream the stored value is the raw
number when the cell is numeric and 0 when it is missing or malformed;
hence any two loaded rows are comparable on every such statistic. -/
theorem C7_numeric_coercion (rng : ℕ → ℤ) (t : RawTable) (lr : LoadedRow)
    (h : lr ∈ load_database rng t) (m : P90Metric) :
    ∃ r ∈ t.rows,
      lr.stat m = (match r.stat m with | RawVal.num q => q | _ => (0 : ℚ)) ∧
      ∀ lr2 ∈ load_database rng t, lr.stat m ≤ lr2.stat m ∨ lr2.stat m ≤ lr.stat m := by
  obtain ⟨r, hr, j, rfl⟩ := mem_loadRows rng t.hasMarketValue t.rows 0 lr h
  refine ⟨r, hr, ?_, fun lr2 _ => le_total _ _⟩
  show coerceNum (r.stat m) = _
  cases r.stat m <;> rfl

theorem C7_numeric_coercion_witness :
    ∃ r ∈ sampleTable.rows,
      (loadRow (zeroRng 0) true sampleRow).stat P90Metric.xG
          = (match r.stat P90Metric.xG with | RawVal.num q => q | _ => (0 : ℚ)) ∧
      ∀ lr2 ∈ load_database zeroRng sampleTable,
        (loadRow (zeroRng 0) true sampleRow).stat P90Metric.xG ≤ lr2.stat P90Metric.xG ∨
        lr2.stat P90Metric.xG ≤ (loadRow (zeroRng 0) true sampleRow).stat P90Metric.xG :=
  C7_numeric_coercion zeroRng sampleTable (loadRow (zeroRng 0) true sampleRow)
    (by simp [load_database, loadRows, sampleTable, sampleRow]) P90Metric.xG

/-- C8: for every row of the loaded table and every metric of the per-90
list, the derived per-90 column equals metric / minutes * 90 when the
coerced minutes played are positive and 0 when they are not positive, so
the computation never divides by zero. -/
theorem C8_per90 (rng : ℕ → ℤ) (t : RawTable) (lr : LoadedRow)
    (h : lr ∈ load_database rng t) (m : P90Metric) :
    (0 < lr.minutesPlayed → lr.statPer90 m = lr.stat m / lr.minutesPlayed * 90) ∧
    (lr.minutesPlayed ≤ 0 → lr.statPer90 m = 0) := by
  obtain ⟨r, hr, j, rfl⟩ := mem_loadRows rng t.hasMarketValue t.rows 0 lr h
  constructor
  · intro hmin
    show per90Val (coerceNum (r.stat m)) (coerceNum r.minutesPlayed) = _
    unfold per90Val
    rw [if_pos (show (0 : ℚ) < coerceNum r.minutesPlayed from hmin)]
    rfl
  · intro hmin
    show per90Val (coerceNum (r.stat m)) (coerceNum r.minutesPlayed) = 0
    unfold per90Val
    rw [if_neg (not_lt.mpr (show coerceNum r.minutesPlayed ≤ 0 from hmin))]

theorem C8_per90_witness :
    (loadRow (zeroRng 0) true sampleRow).statPer90 P90Metric.goals
      = (loadRow (zeroRng 0) true sampleRow).stat P90Metric.goals
          / (loadRow (zeroRng 0) true sampleRow).minutesPlayed * 90 :=
  (C8_per90 zeroRng sampleTable (loadRow (zeroRng 0) true sampleRow)
      (by simp [load_database, loadRows, sampleTable, sampleRow]) P90Metric.goals).1
    (by norm_num [loadRow, coerceNum, sampleRow])

/-- C9: for every row of the loaded table, the pass accuracy percentage
is accurate passes / total passes * 100 when total passes are positive
and 0 otherwise, the dribble success percentage is
completed / attempted * 100 when attempted dribbles are positive and 0
otherwise, and under the precondition 0 <= numerator <= denominator both
derived values lie in [0, 100]; no division by zero is performed in
either branch. -/
theorem C9_percentages (rng : ℕ → ℤ) (t : RawTable) (lr : LoadedRow)
    (h : lr ∈ load_database rng t) :
    (lr.passAccuracyPerc
        = if 0 < lr.totalPasses
          then lr.stat P90Metric.accuratePasses / lr.totalPasses * 100 else 0) ∧
    (lr.dribbleSuccessPerc
        = if 0 < lr.dribblesAttempted
          then lr.stat P90Metric.dribblesCompleted / lr.dribblesAttempted * 100 else 0) ∧
    (0 ≤ lr.stat P90Metric.accuratePasses → lr.stat P90Metric.accuratePasses ≤ lr.totalPasses →
      0 ≤ lr.passAccuracyPerc ∧ lr.passAccuracyPerc ≤ 100) ∧
    (0 ≤ lr.stat P90Metric.dribblesCompleted →
      lr.stat P90Metric.dribblesCompleted ≤ lr.dribblesAttempted →
      0 ≤ lr.dribbleSuccessPerc ∧ lr.dribbleSuccessPerc ≤ 100) := by
  obtain ⟨r, hr, j, rfl⟩ := mem_loadRows rng t.hasMarketValue t.rows 0 lr h
  refine ⟨rfl, rfl, ?_, ?_⟩
  · exact fun h1 h2 => pctVal_bounds _ _ h1 h2
  · exact fun h1 h2 => pctVal_bounds _ _ h1 h2

theorem C9_percentages_witness :
    0 ≤ (loadRow (zeroRng 0) true sampleRow).passAccuracyPerc ∧
    (loadRow (zeroRng 0) true sampleRow).passAccuracyPerc ≤ 100 :=
  (C9_percentages zeroRng sampleTable (loadRow (zeroRng 0) true sampleRow)
      (by simp [load_database, loadRows, sampleTable, sampleRow])).2.2.1
    (by norm_num [loadRow, coerceNum, sampleRow])
    (by norm_num [loadRow, coerceNum, sampleRow])

/-- C5 counterexample: load_database is not a deterministic function of
the input snapshot alone; on a snapshot without a Market_value_eur
column, two runs with different np.random.randint draws produce different
loaded tables. -/
theorem C5_counterexample :
    load_database zeroRng noMVTable ≠ load_database oneRng noMVTable := by
  intro h
  have h2 := congrArg (List.map (fun lr => lr.marketValue)) h
  simp only [load_database, noMVTable, loadRows, loadRow, sampleRow, zeroRng, oneRng,
    Option.isSome, if_true, List.map] at h2
  norm_num at h2

/-- C5 amended: when the input snapshot contains a Market_value_eur
column, load_database never consults the random stream, so re-running the
computation on the unchanged snapshot yields an identical output. -/
theorem C5_deterministic_with_market_value (t : RawTable) (h : t.hasMarketValue = true)
    (rng1 rng2 : ℕ → ℤ) : load_database rng1 t = load_database rng2 t := by
  unfold load_database
  rw [h]
  have key : ∀ (rows : List RawRow) (i j : ℕ),
      loadRows rng1 true i rows = loadRows rng2 true j rows := by
    intro rows
    induction rows with
    | nil => intro i j; rfl
    | cons r rs ih =>
      intro i j
      simp only [loadRows]
      by_cases hn : r.name.isSome = true
      · rw [if_pos hn, if_pos hn, ih (i + 1) (j + 1)]
        rfl
      · rw [if_neg hn, if_neg hn]
        exact ih i j
  exact key t.rows 0 0

theorem C5_deterministic_with_market_value_witness :
    sampleTable.hasMarketValue = true ∧
    load_database zeroRng sampleTable = load_database oneRng sampleTable :=
  ⟨rfl, C5_deterministic_with_market_value sampleTable rfl zeroRng oneRng⟩

theorem mem_applyCat (sel : List String) (get : FRow → String) (l : List FRow) (r : FRow) :
    r ∈ applyCat sel get l ↔ r ∈ l ∧ catPass sel (get r) = true := by
  unfold applyCat catPass
  by_cases hs : sel.isEmpty
  · rw [if_pos hs]
    simp [hs]
  · rw [if_neg hs, List.mem_filter]
    simp [hs]

theorem mem_applyRange (lohi : ℚ × ℚ) (get : FRow → ℚ) (l : List FRow) (r : FRow) :
    r ∈ applyRange lohi get l ↔ r ∈ l ∧ rangePass lohi (get r) = true := by
  unfold applyRange rangePass
  exact List.mem_filter

theorem mem_applyMetricRanges (mrs : List (P90Metric × ℚ × ℚ)) (l : List FRow) (r : FRow) :
    r ∈ applyMetricRanges mrs l ↔
      r ∈ l ∧
        mrs.all (fun mr => decide (mr.2.1 ≤ r.metric mr.1) && decide (r.metric mr.1 ≤ mr.2.2))
          = true := by
  induction mrs generalizing l with
  | nil => simp [applyMetricRanges]
  | cons mr rest ih =>
    simp only [applyMetricRanges]
    rw [ih, List.mem_filter]
    simp [List.all_cons, Bool.and_eq_true, and_assoc]

/-- C6: for every loaded table and every choice of sidebar filter
selections, a row is in the filter pipeline output exactly when it is a
row of the input table (unchanged, since filtering only selects rows) and
it satisfies every active filter predicate: membership in each non-empty
categorical selection and inclusion in the age, minutes, contract-year,
market-value and per-90 metric ranges. -/
theorem C6_filter_membership (f : Filters) (l : List FRow) (r : FRow) :
    r ∈ applyFilters f l ↔ r ∈ l ∧ rowPasses f r = true := by
  unfold applyFilters rowPasses
  rw [mem_applyMetricRanges, mem_applyRange, mem_applyRange, mem_applyRange, mem_applyRange,
    mem_applyCat, mem_applyCat, mem_applyCat, mem_applyCat, mem_applyCat]
  simp only [Bool.and_eq_true]
  tauto

/-- C10 counterexample: safe_mean can raise. On a non-empty numeric
series with a present value (the Minutes_played summary series) and the
format spec d that the repo passes for it, the guard passes, the mean
exists, and formatting the float mean raises ValueError, so the call
errors instead of returning a string: the never-raises part of the claim
is false. -/
theorem C10_counterexample :
    seriesBad (PSeries.mk true [Option.some 90]) = false ∧
    safe_mean fmtIntCode (PSeries.mk true [Option.some 90]) = Except.error () :=
  ⟨rfl, rfl⟩

/-- C10 amended: safe_mean returns the string N/A exactly when the
series is None, empty, of non-numeric dtype, or all-null (a mean that is
not a number cannot arise once those are excluded), provided the
formatter never yields the literal string N/A; otherwise its result is
exactly the outcome of formatting the mean, namely the formatted mean
when the format spec accepts a float and a propagated ValueError when it
does not (as with the format spec d used for the minutes series). -/
theorem C10_safe_mean (fmt : ℚ → Except Unit String)
    (hfmt : ∀ q, fmt q ≠ Except.ok "N/A") (s : PSeries) :
    (safe_mean fmt s = Except.ok "N/A" ↔ seriesBad s = true) ∧
    (seriesBad s = false →
      ∃ q, meanOpt (seriesVals s) = Option.some q ∧ safe_mean fmt s = fmt q) := by
  cases s with
  | none =>
    constructor
    · simp [safe_mean, seriesBad]
    · intro hbad
      simp [seriesBad] at hbad
  | mk numeric vals =>
    by_cases hb : (vals.isEmpty || !numeric || vals.all (fun v => v.isNone)) = true
    · constructor
      · rw [safe_mean, if_pos hb]
        simp [seriesBad, hb]
      · intro hbad
        rw [seriesBad] at hbad
        rw [hb] at hbad
        cases hbad
    · have hb2 : vals.all (fun v => v.isNone) = false := by
        rcases Bool.or_eq_false_iff.mp (Bool.eq_false_iff.mpr hb) with ⟨-, h2⟩
        exact h2
      obtain ⟨q, hq⟩ := meanOpt_isSome_of_not_all_none vals hb2
      have hval : safe_mean fmt (PSeries.mk numeric vals) = fmt q := by
        rw [safe_mean, if_neg hb, hq]
      constructor
      · rw [hval]
        constructor
        · intro hc
          exact absurd hc (hfmt q)
        · intro hc
          rw [seriesBad] at hc
          rw [hc] at hb
          exact absurd rfl hb
      · intro _
        exact ⟨q, hq, hval⟩

theorem C10_safe_mean_witness :
    (safe_mean (fun _ => Except.ok "1.00") (PSeries.mk true [Option.some 1]) = Except.ok "N/A" ↔
      seriesBad (PSeries.mk true [Option.some 1]) = true) ∧
    (seriesBad (PSeries.mk true [Option.some 1]) = false →
      ∃ q, meanOpt (seriesVals (PSeries.mk true [Option.some 1])) = Option.some q ∧
        safe_mean (fun _ => Except.ok "1.00") (PSeries.mk true [Option.some 1])
          = (fun _ : ℚ => Except.ok "1.00") q) :=
  C10_safe_mean (fun _ => Except.ok "1.00")
    (fun _ => fun h => absurd (Except.ok.inj h) (by decide))
    (PSeries.mk true [Option.some 1])

/-- C1 counterexample: the claim quantifies over populations with at
least two eligible players of distinct composite values W, but the
normalizer divides by max(R) - min(R) where R = W + rating; with ratings
1510 and 1500 (both inside the clamp range of the updater) and composite
values 0 and 10, the combined values coincide, the denominator is zero,
and no score in [0, 100] is produced. -/
theorem C1_counterexample :
    2 ≤ cexList.length ∧
    (∃ a ∈ cexList, ∃ b ∈ cexList, compositeW a.1 ≠ compositeW b.1) ∧
    ¬(∀ s ∈ finalScores cexList, ∃ q : ℚ, s = Option.some q ∧ 0 ≤ q ∧ q ≤ 100) := by
  refine ⟨by norm_num [cexList], ?_, ?_⟩
  · refine ⟨(⟨0, 0, 0⟩, 1510), by simp [cexList], (⟨10, 0, 0⟩, 1500), by simp [cexList], ?_⟩
    norm_num [compositeW]
  · intro hall
    have hnone : (Option.none : Option ℚ) ∈ finalScores cexList := by
      have heq : finalScores cexList = [Option.none, Option.none] := by
        norm_num [finalScores, cexList, scoreOf, rMax, rMin, foldMax, foldMin,
          combinedR, compositeW, List.map]
      rw [heq]
      simp
    obtain ⟨q, hq, -⟩ := hall Option.none hnone
    cases hq

/-- C1 amended: for every eligible population containing two players
with distinct raw combined values R = W + rating, every final Aerial
Duel Score is defined and lies in the closed interval [0, 100]. -/
theorem C1_scores_in_range (l : List (AerialPlayer × ℚ))
    (hd : ∃ a ∈ l, ∃ b ∈ l, combinedR a ≠ combinedR b)
    (s : Option ℚ) (hs : s ∈ finalScores l) :
    ∃ q : ℚ, s = Option.some q ∧ 0 ≤ q ∧ q ≤ 100 := by
  obtain ⟨a, ha, b, hb, hab⟩ := hd
  have hlt : rMin l < rMax l := by
    rcases lt_or_gt_of_ne hab with h | h
    · exact lt_of_le_of_lt (rMin_le_combinedR l a ha)
        (lt_of_lt_of_le h (combinedR_le_rMax l b hb))
    · exact lt_of_le_of_lt (rMin_le_combinedR l b hb)
        (lt_of_lt_of_le h (combinedR_le_rMax l a ha))
  have hne : rMax l ≠ rMin l := ne_of_gt hlt
  obtain ⟨pr, hpr, rfl⟩ := List.mem_map.mp hs
  refine ⟨(combinedR pr - rMin l) / (rMax l - rMin l) * 100, ?_, ?_, ?_⟩
  · unfold scoreOf
    rw [if_neg hne]
  · apply mul_nonneg _ (by norm_num)
    apply div_nonneg _ (by linarith)
    linarith [rMin_le_combinedR l pr hpr]
  · have h1 : (combinedR pr - rMin l) / (rMax l - rMin l) ≤ 1 := by
      apply (div_le_one (by linarith)).mpr
      linarith [combinedR_le_rMax l pr hpr]
    calc (combinedR pr - rMin l) / (rMax l - rMin l) * 100
        ≤ 1 * 100 := mul_le_mul_of_nonneg_right h1 (by norm_num)
      _ = 100 := by norm_num

theorem C1_scores_in_range_witness :
    ∃ q : ℚ, scoreOf okList (⟨0, 0, 0⟩, 1500) = Option.some q ∧ 0 ≤ q ∧ q ≤ 100 :=
  C1_scores_in_range okList
    ⟨(⟨0, 0, 0⟩, 1500), by simp [okList], (⟨10, 0, 0⟩, 1500), by simp [okList],
      by norm_num [combinedR, compositeW]⟩
    (scoreOf okList (⟨0, 0, 0⟩, 1500))
    (List.mem_map_of_mem (scoreOf okList) (by simp [okList]))

/-- C4: in every table with unique player names, a row excluded by the
eligibility filter appears in the final left-joined output paired with a
missing Aerial Duel Score (Option.none), its own columns unchanged. -/
theorem C4_excluded_row_na (thr : ℚ) (scoreFn : PRow → ℚ) (tbl : List PRow)
    (hnd : (tbl.map PRow.name).Nodup) (r : PRow) (hr : r ∈ tbl)
    (he : eligibleRow thr r = false) :
    (r, (Option.none : Option ℚ)) ∈ joinedTable thr scoreFn tbl := by
  have hlook : lookupName r.name (scoresMap thr scoreFn tbl) = Option.none := by
    apply lookupName_eq_none
    intro kv hkv
    obtain ⟨r2, hr2, hkv2⟩ := List.mem_map.mp hkv
    have hr2mem : r2 ∈ tbl := (List.mem_filter.mp hr2).1
    have hr2el : eligibleRow thr r2 = true := (List.mem_filter.mp hr2).2
    intro hname
    have hn2 : r2.name = r.name := by
      rw [← hkv2] at hname
      exact hname
    have hrr : r2 = r := List.inj_on_of_nodup_map hnd hr2mem hr hn2
    rw [hrr, he] at hr2el
    cases hr2el
  have hm := List.mem_map_of_mem
    (fun rr => (rr, lookupName rr.name (scoresMap thr scoreFn tbl))) hr
  have hbeta : (fun rr => (rr, lookupName rr.name (scoresMap thr scoreFn tbl))) r
      = (r, (Option.none : Option ℚ)) := by
    show (r, lookupName r.name (scoresMap thr scoreFn tbl)) = (r, Option.none)
    rw [hlook]
  rw [hbeta] at hm
  exact hm

theorem C4_excluded_row_na_witness :
    (badRow, (Option.none : Option ℚ)) ∈ joinedTable 180 (fun _ => 0) [badRow] :=
  C4_excluded_row_na 180 (fun _ => 0) [badRow] (by simp) badRow (by simp) (by decide)

end Scouting
